import Mathlib

/-!
Verification of the Monte Carlo retirement-simulation core of
`nfr97/financial-planning` against its natural-language specification.

The JavaScript sources are shallowly embedded: JS numbers become `ℚ`
(exact rational arithmetic, the idealization the specification itself is
written in), objects become structures, in-place mutation becomes explicit
state passing, and the per-trial loops become structural recursion on the
remaining number of years.  The stream of market-return samples produced by
`generateNormalRandom` (Box-Muller over the uniform source) is abstracted
as an explicit sequence `returns : ℕ → ℚ`, one draw per simulated year,
exactly as the trial consumes it.
-/

namespace FinSim

/-- The five named account balances (also reused for the five matching
contribution amounts), mirroring the JS object
`{ traditional401k, roth401k, traditionalIRA, rothIRA, taxable }`
of `lib/simulation.js` and of `RetirementSimulator.runSingleSimulation`. -/
structure Balances where
  traditional401k : ℚ
  roth401k : ℚ
  traditionalIRA : ℚ
  rothIRA : ℚ
  taxable : ℚ
deriving DecidableEq, Repr

/-- `getTotalBalance` of `lib/simulation.js`: sum of the five balances
(`Object.values(balances).reduce((a, b) => a + b, 0)`). -/
def getTotalBalance (b : Balances) : ℚ :=
  b.traditional401k + b.roth401k + b.traditionalIRA + b.rothIRA + b.taxable

/-- All five balances are non-negative (the AccountSet invariant of the spec). -/
def NonnegB (b : Balances) : Prop :=
  0 ≤ b.traditional401k ∧ 0 ≤ b.roth401k ∧ 0 ≤ b.traditionalIRA ∧
    0 ≤ b.rothIRA ∧ 0 ≤ b.taxable

instance (b : Balances) : Decidable (NonnegB b) := by
  unfold NonnegB
  infer_instance

/-- `applyMarketReturns` of `lib/simulation.js`: every balance is multiplied
by `(1 + returnRate)`. -/
def applyMarketReturns (b : Balances) (returnRate : ℚ) : Balances where
  traditional401k := b.traditional401k * (1 + returnRate)
  roth401k := b.roth401k * (1 + returnRate)
  traditionalIRA := b.traditionalIRA * (1 + returnRate)
  rothIRA := b.rothIRA * (1 + returnRate)
  taxable := b.taxable * (1 + returnRate)

/-- `addContributions` of `lib/simulation.js`: field-wise addition of the
contribution amounts. -/
def addContributions (b c : Balances) : Balances where
  traditional401k := b.traditional401k + c.traditional401k
  roth401k := b.roth401k + c.roth401k
  traditionalIRA := b.traditionalIRA + c.traditionalIRA
  rothIRA := b.rothIRA + c.rothIRA
  taxable := b.taxable + c.taxable

/-- One step of the withdrawal cascade, the literal JS pattern
`if (remaining > 0 && bal > 0) { w = Math.min(bal, remaining); bal -= w;
remaining -= w; }` applied to a single balance; returns the new balance and
the new remaining need. -/
def withdrawStep (balance remaining : ℚ) : ℚ × ℚ :=
  if 0 < remaining ∧ 0 < balance then
    (balance - min balance remaining, remaining - min balance remaining)
  else (balance, remaining)

/-- `withdrawFromAccounts` of `lib/simulation.js`: the five-step waterfall
taxable → traditional401k → traditionalIRA → roth401k → rothIRA, each step
capped at `min(balance, remaining)`; returns the updated balances and the
unmet remainder.  (The identical inline cascade appears in
`RetirementSimulator.runSingleSimulation`.) -/
def withdrawFromAccounts (b : Balances) (amount : ℚ) : Balances × ℚ :=
  let s1 := withdrawStep b.taxable amount
  let s2 := withdrawStep b.traditional401k s1.2
  let s3 := withdrawStep b.traditionalIRA s2.2
  let s4 := withdrawStep b.roth401k s3.2
  let s5 := withdrawStep b.rothIRA s4.2
  (⟨s2.1, s4.1, s3.1, s5.1, s1.1⟩, s5.2)

/-- A generic waterfall over an ordered list of balances: applies
`withdrawStep` to each balance in list order, threading the remaining need
through; used to state the fixed withdrawal order as a theorem. -/
def waterfall : List ℚ → ℚ → List ℚ × ℚ
  | [], r => ([], r)
  | b :: bs, r =>
    let s := withdrawStep b r
    let t := waterfall bs s.2
    (s.1 :: t.1, t.2)

/-- On non-negative inputs a withdrawal step leaves `max 0 (bal − need)` in
the account and `max 0 (need − bal)` unmet. -/
theorem withdrawStep_eq {balance remaining : ℚ} (hb : 0 ≤ balance)
    (hr : 0 ≤ remaining) :
    withdrawStep balance remaining =
      (max 0 (balance - remaining), max 0 (remaining - balance)) := by
  unfold withdrawStep
  split_ifs with h
  · obtain ⟨h1, h2⟩ := h
    rcases le_total balance remaining with hc | hc
    · rw [min_eq_left hc, max_eq_left (by linarith), max_eq_right (by linarith)]
      simp
    · rw [min_eq_right hc, max_eq_right (by linarith), max_eq_left (by linarith)]
      simp
  · push_neg at h
    rcases lt_or_le 0 remaining with hr0 | hr0
    · have hb0 : balance = 0 := le_antisymm (h hr0) hb
      rw [hb0, max_eq_left (by linarith), max_eq_right (by linarith)]
      simp
    · have hr1 : remaining = 0 := le_antisymm hr0 hr
      rw [hr1, max_eq_right (by linarith), max_eq_left (by linarith)]
      simp

/-- Clamping to zero commutes with subtracting a further non-negative
balance: `max 0 (max 0 x − b) = max 0 (x − b)` for `0 ≤ b`. -/
theorem max_sub_chain (x b : ℚ) (hb : 0 ≤ b) :
    max 0 (max 0 x - b) = max 0 (x - b) := by
  rcases le_total x 0 with h | h
  · rw [max_eq_left h, max_eq_left (by linarith), max_eq_left (by linarith)]
  · rw [max_eq_right h]

/-- The clamped difference identity `max 0 (b − r) = b − r + max 0 (r − b)`. -/
theorem max_sub_comm (b r : ℚ) :
    max 0 (b - r) = b - r + max 0 (r - b) := by
  rcases le_total b r with h | h
  · rw [max_eq_left (by linarith), max_eq_right (by linarith)]
    ring
  · rw [max_eq_right (by linarith), max_eq_left (by linarith)]
    ring

/-- Claim C1: for every account record with all five balances non-negative
and every requested amount ≥ 0, `withdrawFromAccounts` pulls in the fixed
order taxable → traditional401k → traditionalIRA → roth401k → rothIRA (it
coincides with the generic step-capped waterfall over that ordered list);
it never drives any balance negative; the sum of balances after the call
equals the sum before minus `(amount − remainder)`; the remainder is
non-negative and is 0 exactly when the request was fully satisfiable from
the available total (so a remainder > 0 signals a shortfall). -/
theorem withdrawFromAccounts_spec (b : Balances) (amount : ℚ)
    (hb : NonnegB b) (ha : 0 ≤ amount) :
    ((withdrawFromAccounts b amount).2 =
        (waterfall [b.taxable, b.traditional401k, b.traditionalIRA,
          b.roth401k, b.rothIRA] amount).2 ∧
      [(withdrawFromAccounts b amount).1.taxable,
        (withdrawFromAccounts b amount).1.traditional401k,
        (withdrawFromAccounts b amount).1.traditionalIRA,
        (withdrawFromAccounts b amount).1.roth401k,
        (withdrawFromAccounts b amount).1.rothIRA] =
        (waterfall [b.taxable, b.traditional401k, b.traditionalIRA,
          b.roth401k, b.rothIRA] amount).1) ∧
    NonnegB (withdrawFromAccounts b amount).1 ∧
    getTotalBalance (withdrawFromAccounts b amount).1 =
      getTotalBalance b - (amount - (withdrawFromAccounts b amount).2) ∧
    0 ≤ (withdrawFromAccounts b amount).2 ∧
    ((withdrawFromAccounts b amount).2 = 0 ↔ amount ≤ getTotalBalance b) := by
  obtain ⟨h1, h2, h3, h4, h5⟩ := hb
  have e1 := withdrawStep_eq h5 ha
  have e2 := withdrawStep_eq h1 (le_max_left 0 (amount - b.taxable))
  have e3 := withdrawStep_eq h3
    (le_max_left 0 (max 0 (amount - b.taxable) - b.traditional401k))
  have e4 := withdrawStep_eq h2
    (le_max_left 0 (max 0 (max 0 (amount - b.taxable) - b.traditional401k) -
      b.traditionalIRA))
  have e5 := withdrawStep_eq h4
    (le_max_left 0 (max 0 (max 0 (max 0 (amount - b.taxable) -
      b.traditional401k) - b.traditionalIRA) - b.roth401k))
  have chain :
      (withdrawFromAccounts b amount).2 =
        max 0 (amount - b.taxable - b.traditional401k - b.traditionalIRA -
          b.roth401k - b.rothIRA) := by
    simp only [withdrawFromAccounts, e1, e2, e3, e4, e5]
    rw [max_sub_chain _ _ h1, max_sub_chain _ _ h3, max_sub_chain _ _ h2,
      max_sub_chain _ _ h4]
  refine ⟨⟨?_, ?_⟩, ?_, ?_, ?_, ?_⟩
  · simp only [withdrawFromAccounts, waterfall]
  · simp only [withdrawFromAccounts, waterfall]
  · simp only [withdrawFromAccounts, e1, e2, e3, e4, e5, NonnegB]
    exact ⟨le_max_left _ _, le_max_left _ _, le_max_left _ _,
      le_max_left _ _, le_max_left _ _⟩
  · simp only [withdrawFromAccounts, getTotalBalance, e1, e2, e3, e4, e5]
    rw [max_sub_comm b.taxable amount,
      max_sub_comm b.traditional401k (max 0 (amount - b.taxable)),
      max_sub_comm b.traditionalIRA
        (max 0 (max 0 (amount - b.taxable) - b.traditional401k)),
      max_sub_comm b.roth401k
        (max 0 (max 0 (max 0 (amount - b.taxable) - b.traditional401k) -
          b.traditionalIRA)),
      max_sub_comm b.rothIRA
        (max 0 (max 0 (max 0 (max 0 (amount - b.taxable) -
          b.traditional401k) - b.traditionalIRA) - b.roth401k))]
    ring
  · rw [chain]
    exact le_max_left _ _
  · rw [chain]
    unfold getTotalBalance
    constructor
    · intro h
      have := le_max_right (0:ℚ) (amount - b.taxable - b.traditional401k -
        b.traditionalIRA - b.roth401k - b.rothIRA)
      rw [h] at this
      linarith
    · intro h
      rw [max_eq_left (by linarith)]

/-- Witness for C1 at a concrete record and amount. -/
theorem withdrawFromAccounts_spec_witness :
    NonnegB ⟨10, 2, 3, 1, 5⟩ ∧ (0:ℚ) ≤ 12 ∧
      (NonnegB (withdrawFromAccounts ⟨10, 2, 3, 1, 5⟩ 12).1 ∧
        getTotalBalance (withdrawFromAccounts ⟨10, 2, 3, 1, 5⟩ 12).1 =
          getTotalBalance ⟨10, 2, 3, 1, 5⟩ -
            (12 - (withdrawFromAccounts ⟨10, 2, 3, 1, 5⟩ 12).2)) :=
  ⟨by decide, by norm_num,
    ((withdrawFromAccounts_spec ⟨10, 2, 3, 1, 5⟩ 12 (by decide)
      (by norm_num)).2).1,
    (((withdrawFromAccounts_spec ⟨10, 2, 3, 1, 5⟩ 12 (by decide)
      (by norm_num)).2).2).1⟩

/-- `RMD_TABLE` of `lib/simulation.js` (IRS Uniform Lifetime Table): maps an
age to its distribution period; ages outside 72–120 have no entry. -/
def RMD_TABLE : ℕ → Option ℚ
  | 72 => some 27.4
  | 73 => some 26.5
  | 74 => some 25.5
  | 75 => some 24.6
  | 76 => some 23.7
  | 77 => some 22.9
  | 78 => some 22.0
  | 79 => some 21.1
  | 80 => some 20.2
  | 81 => some 19.4
  | 82 => some 18.5
  | 83 => some 17.7
  | 84 => some 16.8
  | 85 => some 16.0
  | 86 => some 15.2
  | 87 => some 14.4
  | 88 => some 13.7
  | 89 => some 12.9
  | 90 => some 12.2
  | 91 => some 11.5
  | 92 => some 10.8
  | 93 => some 10.1
  | 94 => some 9.5
  | 95 => some 8.9
  | 96 => some 8.4
  | 97 => some 7.8
  | 98 => some 7.3
  | 99 => some 6.8
  | 100 => some 6.4
  | 101 => some 6.0
  | 102 => some 5.6
  | 103 => some 5.2
  | 104 => some 4.9
  | 105 => some 4.6
  | 106 => some 4.3
  | 107 => some 4.1
  | 108 => some 3.9
  | 109 => some 3.7
  | 110 => some 3.5
  | 111 => some 3.4
  | 112 => some 3.3
  | 113 => some 3.1
  | 114 => some 3.0
  | 115 => some 2.9
  | 116 => some 2.8
  | 117 => some 2.7
  | 118 => some 2.5
  | 119 => some 2.3
  | 120 => some 2.0
  | _ => none

/-- `RMD_START_AGE` of `lib/simulation.js` (SECURE 2.0 Act). -/
def RMD_START_AGE : ℕ := 73

/-- Result record of `calculateRMD`:
`{ required: boolean, amount: number, period: number|null }`. -/
structure RMDResult where
  required : Bool
  amount : ℚ
  period : Option ℚ
deriving DecidableEq, Repr

/-- `calculateRMD` of `lib/simulation.js`: below the start age nothing is
required; otherwise the RMD is the pre-tax total divided by the table's
distribution period at `min(age, 120)` (`|| 2.0` as the fallback; the table
stores no zero entry, so `Option.getD 2` is faithful to the JS `||`). -/
def calculateRMD (balances : Balances) (age : ℕ) : RMDResult :=
  if age < RMD_START_AGE then ⟨false, 0, none⟩
  else
    let traditionalBalance := balances.traditional401k + balances.traditionalIRA
    if traditionalBalance ≤ 0 then ⟨true, 0, none⟩
    else
      let lookupAge := min age 120
      let period := (RMD_TABLE lookupAge).getD 2
      ⟨true, traditionalBalance / period, some period⟩

/-- The distribution period as a function of age, exactly as `calculateRMD`
looks it up: table entry at `min(age, 120)` with fallback 2.0. -/
def rmdPeriod (age : ℕ) : ℚ := (RMD_TABLE (min age 120)).getD 2

/-- Adjacent table ages 72–120 have non-increasing periods (finite check). -/
theorem rmdPeriod_step : ∀ a : Fin 48, rmdPeriod (73 + a.val) ≤ rmdPeriod (72 + a.val) := by
  intro a
  fin_cases a <;> norm_num [rmdPeriod, RMD_TABLE]

/-- For every age ≥ 72 the distribution period does not increase from one
year to the next (table ages by the finite check, and constancy at the
120 clamp beyond the table's top). -/
theorem rmdPeriod_succ_le (a : ℕ) (h : 72 ≤ a) :
    rmdPeriod (a + 1) ≤ rmdPeriod a := by
  rcases le_or_lt a 119 with h119 | h119
  · have hi : a - 72 < 48 := by omega
    have hstep := rmdPeriod_step ⟨a - 72, hi⟩
    have e1 : 73 + (a - 72) = a + 1 := by omega
    have e2 : 72 + (a - 72) = a := by omega
    rwa [e1, e2] at hstep
  · have e1 : min (a + 1) 120 = 120 := by omega
    have e2 : min a 120 = 120 := by omega
    unfold rmdPeriod
    rw [e1, e2]

/-- The distribution period is antitone in age on ages ≥ 72. -/
theorem rmdPeriod_anti {a1 a2 : ℕ} (h72 : 72 ≤ a1) (h : a1 ≤ a2) :
    rmdPeriod a2 ≤ rmdPeriod a1 := by
  induction a2, h using Nat.le_induction with
  | base => exact le_refl _
  | succ n hn ih =>
    exact le_trans (rmdPeriod_succ_le n (le_trans h72 hn)) ih

/-- Claim C5: below age 73 `calculateRMD` reports no required distribution
with amount 0; at any age ≥ 73 with positive pre-tax total the amount is
`(traditional401k + traditionalIRA) / period(age)` where the period is the
fixed table entry at `min(age, 120)` (so 2.0 for every age beyond the
table's top), and the period is non-increasing as age increases. -/
theorem calculateRMD_spec (b : Balances) (ageLow ageHigh ageBig a1 a2 : ℕ)
    (hLow : ageLow < 73) (hHigh : 73 ≤ ageHigh)
    (hpos : 0 < b.traditional401k + b.traditionalIRA)
    (hBig : 120 ≤ ageBig) (ha1 : 73 ≤ a1) (ha12 : a1 ≤ a2) :
    ((calculateRMD b ageLow).required = false ∧
      (calculateRMD b ageLow).amount = 0) ∧
    ((calculateRMD b ageHigh).required = true ∧
      (calculateRMD b ageHigh).amount =
        (b.traditional401k + b.traditionalIRA) / rmdPeriod ageHigh) ∧
    rmdPeriod ageBig = 2 ∧
    rmdPeriod a2 ≤ rmdPeriod a1 := by
  refine ⟨?_, ?_, ?_, rmdPeriod_anti (by omega) ha12⟩
  · unfold calculateRMD RMD_START_AGE
    rw [if_pos hLow]
    exact ⟨rfl, rfl⟩
  · unfold calculateRMD RMD_START_AGE
    rw [if_neg (by omega), if_neg (by linarith)]
    exact ⟨rfl, rfl⟩
  · unfold rmdPeriod
    rw [min_eq_right hBig]
    norm_num [RMD_TABLE]

/-- Witness for C5 at concrete ages and balances. -/
theorem calculateRMD_spec_witness :
    ((calculateRMD ⟨100, 0, 50, 0, 0⟩ 60).required = false ∧
      (calculateRMD ⟨100, 0, 50, 0, 0⟩ 60).amount = 0) ∧
    ((calculateRMD ⟨100, 0, 50, 0, 0⟩ 75).required = true ∧
      (calculateRMD ⟨100, 0, 50, 0, 0⟩ 75).amount = 150 / rmdPeriod 75) ∧
    rmdPeriod 130 = 2 ∧
    rmdPeriod 90 ≤ rmdPeriod 80 := by
  have h := calculateRMD_spec ⟨100, 0, 50, 0, 0⟩ 60 75 130 80 90 (by omega)
    (by omega) (by norm_num) (by omega) (by omega) (by omega)
  refine ⟨h.1, ⟨h.2.1.1, ?_⟩, h.2.2.1, h.2.2.2⟩
  rw [h.2.1.2]
  norm_num

/-- The parameters of the `SocialSecurityCalculator` class constructor of the
Social Security module, with their 2024 defaults. -/
structure SocialSecurityCalculator where
  bendPoint1 : ℚ := 1174
  bendPoint2 : ℚ := 7078
  maxTaxableEarnings : ℚ := 168600
deriving DecidableEq, Repr

/-- A calculator constructed with no options (all defaults). -/
def defaultSSCalculator : SocialSecurityCalculator := {}

/-- `SocialSecurityCalculator.adjustBenefitForAge`: early claiming reduces
PIA by 5/9 of 1% per month for the first 36 months and 5/12 of 1% per month
beyond; delayed claiming credits 8% per year of delay; at the FRA the PIA is
returned unchanged.  (The method reads none of the instance fields.) -/
def adjustBenefitForAge (pia claimAge fra : ℚ) : ℚ :=
  let monthsDiff := (claimAge - fra) * 12
  if monthsDiff < 0 then
    let monthsEarly := |monthsDiff|
    let first36 := min monthsEarly 36
    let reduction := first36 * (5 / 9) / 100 +
      (if 36 < monthsEarly then (monthsEarly - 36) * (5 / 12) / 100 else 0)
    pia * (1 - reduction)
  else if 0 < monthsDiff then
    pia * (1 + monthsDiff / 12 * 0.08)
  else pia

/-- Claim C7: `adjustBenefitForAge(pia, fra, fra) = pia`; claiming `m > 0`
months early yields `pia × (1 − reduction)` with the 5/9-percent and
5/12-percent monthly reductions summed; claiming `d > 0` years late yields
`pia × (1 + d × 8%)`, and in particular three years of delay yields
`pia × 1.24`. -/
theorem adjustBenefitForAge_spec (pia fra m d : ℚ) (hm : 0 < m) (hd : 0 < d) :
    adjustBenefitForAge pia fra fra = pia ∧
    adjustBenefitForAge pia (fra - m / 12) fra =
      pia * (1 - (min m 36 * (5 / 9) / 100 + max 0 (m - 36) * (5 / 12) / 100)) ∧
    adjustBenefitForAge pia (fra + d) fra = pia * (1 + d * (8 / 100)) ∧
    adjustBenefitForAge pia (fra + 3) fra = pia * (124 / 100) := by
  refine ⟨?_, ?_, ?_, ?_⟩
  · simp [adjustBenefitForAge]
  · simp only [adjustBenefitForAge]
    rw [show (fra - m / 12 - fra) * 12 = -m by ring]
    rw [if_pos (by linarith : (-m : ℚ) < 0), abs_neg, abs_of_pos hm]
    split_ifs with h36
    · rw [max_eq_right (by linarith)]
    · rw [max_eq_left (by linarith)]
      ring
  · simp only [adjustBenefitForAge]
    rw [show (fra + d - fra) * 12 = d * 12 by ring]
    rw [if_neg (by linarith : ¬(d * 12 : ℚ) < 0), if_pos (by linarith : (0:ℚ) < d * 12)]
    ring_nf
  · simp only [adjustBenefitForAge]
    rw [show (fra + 3 - fra) * 12 = (36 : ℚ) by ring]
    norm_num

/-- Witness for C7 at `pia = 1000`, `fra = 67`, 24 months early, 2 years
delayed. -/
theorem adjustBenefitForAge_spec_witness :
    adjustBenefitForAge 1000 67 67 = 1000 ∧
    adjustBenefitForAge 1000 (67 - 24 / 12) 67 =
      1000 * (1 - (min 24 36 * (5 / 9) / 100 + max 0 (24 - 36) * (5 / 12) / 100)) ∧
    adjustBenefitForAge 1000 (67 + 2) 67 = 1000 * (1 + 2 * (8 / 100)) ∧
    adjustBenefitForAge 1000 (67 + 3) 67 = 1000 * (124 / 100) :=
  adjustBenefitForAge_spec 1000 67 24 2 (by norm_num) (by norm_num)

/-- `SocialSecurityCalculator.estimatePIA`: cap income at the maximum
taxable earnings, `effectiveYears = min(yearsWorked, 35)`, AIME =
capped × effectiveYears ÷ 420, then the two-bend-point piecewise formula
with rates 90%/32%/15%, rounded to the nearest integer (`Math.round`,
which is `round` on ℚ: half-up). -/
def estimatePIA (c : SocialSecurityCalculator) (annualIncome yearsWorked : ℚ) : ℤ :=
  let cappedIncome := min annualIncome c.maxTaxableEarnings
  let effectiveYears := min yearsWorked 35
  let totalEarnings := cappedIncome * effectiveYears
  let aime := totalEarnings / (35 * 12)
  let pia :=
    if aime ≤ c.bendPoint1 then aime * 0.9
    else if aime ≤ c.bendPoint2 then
      c.bendPoint1 * 0.9 + (aime - c.bendPoint1) * 0.32
    else
      c.bendPoint1 * 0.9 + (c.bendPoint2 - c.bendPoint1) * 0.32 +
        (aime - c.bendPoint2) * 0.15
  round pia

/-- The if-chain of `estimatePIA`'s bend-point computation equals the
marginal 90%/32%/15% replacement formula, for any AIME. -/
theorem piaPiecewise_eq (aime : ℚ) :
    (if aime ≤ 1174 then aime * 0.9
      else if aime ≤ 7078 then 1174 * 0.9 + (aime - 1174) * 0.32
      else 1174 * 0.9 + ((7078 : ℚ) - 1174) * 0.32 + (aime - 7078) * 0.15) =
      (9 / 10) * min aime 1174 + (32 / 100) * max 0 (min aime 7078 - 1174) +
        (15 / 100) * max 0 (aime - 7078) := by
  split_ifs with h1 h2
  · rw [min_eq_left h1, min_eq_left (le_trans h1 (by norm_num)),
      max_eq_left (by linarith), max_eq_left (by linarith)]
    norm_num
    ring
  · rw [min_eq_right (by linarith), min_eq_left h2,
      max_eq_right (by linarith), max_eq_left (by linarith)]
    norm_num
    ring
  · rw [min_eq_right (by linarith), min_eq_right (by linarith),
      max_eq_right (by linarith), max_eq_right (by linarith)]
    norm_num
    ring

/-- Claim C6: with the default 2024 parameters, `estimatePIA` equals the
marginal 90%/32%/15% replacement formula over the capped AIME
`min(income, 168600) × min(years, 35) / 420` with bend points 1174 and
7078, rounded to the nearest integer; in particular
`estimatePIA(168600, 35) = 3992`. -/
theorem estimatePIA_spec (annualIncome yearsWorked : ℚ)
    (hI : 0 ≤ annualIncome) (hY : 0 ≤ yearsWorked) :
    estimatePIA defaultSSCalculator annualIncome yearsWorked =
      round ((9 / 10) * min (min annualIncome 168600 * min yearsWorked 35 / 420) 1174 +
        (32 / 100) *
          max 0 (min (min annualIncome 168600 * min yearsWorked 35 / 420) 7078 - 1174) +
        (15 / 100) * max 0 (min annualIncome 168600 * min yearsWorked 35 / 420 - 7078)) ∧
    estimatePIA defaultSSCalculator 168600 35 = 3992 := by
  constructor
  · simp only [estimatePIA, defaultSSCalculator]
    rw [show (35 : ℚ) * 12 = 420 by norm_num]
    exact congrArg round
      (piaPiecewise_eq (min annualIncome 168600 * min yearsWorked 35 / 420))
  · norm_num [estimatePIA, defaultSSCalculator, round_eq, Int.floor_eq_iff]

/-- Witness for C6 at `annualIncome = 50000`, `yearsWorked = 20`. -/
theorem estimatePIA_spec_witness :
    estimatePIA defaultSSCalculator 50000 20 =
      round ((9 / 10) * min (min 50000 168600 * min 20 35 / 420) 1174 +
        (32 / 100) * max 0 (min (min 50000 168600 * min 20 35 / 420) 7078 - 1174) +
        (15 / 100) * max 0 ((min 50000 168600 * min 20 35 / 420 : ℚ) - 7078)) ∧
    estimatePIA defaultSSCalculator 168600 35 = 3992 :=
  estimatePIA_spec 50000 20 (by norm_num) (by norm_num)

/-- A user-defined life event: kind (a free-form string in the JS), amount,
start age, and duration. -/
structure LifeEvent where
  type : String
  amount : ℚ
  startAge : ℚ
  duration : ℚ
deriving DecidableEq, Repr

/-- The `{ expense, income }` totals returned by `getLifeEventImpact`. -/
structure LifeEventImpact where
  expense : ℚ
  income : ℚ
deriving DecidableEq, Repr

/-- One iteration of the `getLifeEventImpact` loop of `lib/simulation.js`:
an event active at `age` (half-open `[startAge, startAge + duration)`)
adds its amount to the expense total when `type === 'expense'` and to the
income total otherwise. -/
def lifeEventStep (age : ℚ) (acc : LifeEventImpact) (event : LifeEvent) :
    LifeEventImpact :=
  if event.startAge ≤ age ∧ age < event.startAge + event.duration then
    if event.type = "expense" then
      { acc with expense := acc.expense + event.amount }
    else
      { acc with income := acc.income + event.amount }
  else acc

/-- `getLifeEventImpact` of `lib/simulation.js`. -/
def getLifeEventImpact (age : ℚ) (lifeEvents : List LifeEvent) : LifeEventImpact :=
  lifeEvents.foldl (lifeEventStep age) ⟨0, 0⟩

/-- An event is active at `age` when `startAge ≤ age < startAge + duration`. -/
def activeAt (age : ℚ) (e : LifeEvent) : Prop :=
  e.startAge ≤ age ∧ age < e.startAge + e.duration

instance (age : ℚ) (e : LifeEvent) : Decidable (activeAt age e) := by
  unfold activeAt
  infer_instance

/-- An event counts toward the income total: active and not typed exactly
"expense". -/
def countsAsIncome (age : ℚ) (e : LifeEvent) : Bool :=
  decide (activeAt age e) && !(e.type == "expense")

/-- An event counts toward the expense total: active and typed exactly
"expense". -/
def countsAsExpense (age : ℚ) (e : LifeEvent) : Bool :=
  decide (activeAt age e) && (e.type == "expense")

/-- Folding the life-event loop from any accumulator adds exactly the active
non-expense amounts to the income total and the active expense amounts to
the expense total. -/
theorem lifeEventStep_foldl (age : ℚ) (events : List LifeEvent) :
    ∀ acc : LifeEventImpact,
      (events.foldl (lifeEventStep age) acc).income =
        acc.income +
          ((events.filter (countsAsIncome age)).map (fun e => e.amount)).sum ∧
      (events.foldl (lifeEventStep age) acc).expense =
        acc.expense +
          ((events.filter (countsAsExpense age)).map (fun e => e.amount)).sum := by
  induction events with
  | nil => intro acc; simp
  | cons e es ih =>
    intro acc
    rw [List.foldl_cons, List.filter_cons, List.filter_cons]
    obtain ⟨ih1, ih2⟩ := ih (lifeEventStep age acc e)
    by_cases hact : activeAt age e
    · by_cases hexp : e.type = "expense"
      · have hci : countsAsIncome age e = false := by
          simp [countsAsIncome, hexp]
        have hce : countsAsExpense age e = true := by
          simp [countsAsExpense, hact, hexp]
        have hs : lifeEventStep age acc e =
            { acc with expense := acc.expense + e.amount } := by
          unfold activeAt at hact
          unfold lifeEventStep
          rw [if_pos hact, if_pos hexp]
        rw [ih1, ih2, hs, hci, hce]
        constructor
        · simp
        · simp
          ring
      · have hci : countsAsIncome age e = true := by
          simp [countsAsIncome, hact, hexp]
        have hce : countsAsExpense age e = false := by
          simp [countsAsExpense, hexp]
        have hs : lifeEventStep age acc e =
            { acc with income := acc.income + e.amount } := by
          unfold activeAt at hact
          unfold lifeEventStep
          rw [if_pos hact, if_neg hexp]
        rw [ih1, ih2, hs, hci, hce]
        constructor
        · simp
          ring
        · simp
    · have hci : countsAsIncome age e = false := by
        simp [countsAsIncome, hact]
      have hce : countsAsExpense age e = false := by
        simp [countsAsExpense, hact]
      have hs : lifeEventStep age acc e = acc := by
        unfold activeAt at hact
        unfold lifeEventStep
        rw [if_neg hact]
      rw [ih1, ih2, hs, hci, hce]
      constructor
      · simp
      · simp

/-- Claim C10: for every age and event list, the income total returned by
`getLifeEventImpact` is the sum of the amounts of the active events whose
type is not exactly the string "expense" — events with an unrecognized or
missing kind are counted as income, not ignored — and the expense total is
the sum of the active events typed exactly "expense". -/
theorem getLifeEventImpact_spec (age : ℚ) (events : List LifeEvent) :
    (getLifeEventImpact age events).income =
      ((events.filter (countsAsIncome age)).map (fun e => e.amount)).sum ∧
    (getLifeEventImpact age events).expense =
      ((events.filter (countsAsExpense age)).map (fun e => e.amount)).sum := by
  have h := lifeEventStep_foldl age events ⟨0, 0⟩
  unfold getLifeEventImpact
  constructor
  · rw [h.1]
    simp
  · rw [h.2]
    simp

/-- `applyRMD` of `lib/simulation.js`: withdraw the RMD amount from
`traditional401k` first, then `traditionalIRA`; returns the balances and
the total actually withdrawn (`rmdAmount` minus the unmet remainder). -/
def applyRMD (b : Balances) (rmdAmount : ℚ) : Balances × ℚ :=
  let s1 := withdrawStep b.traditional401k rmdAmount
  let s2 := withdrawStep b.traditionalIRA s1.2
  ({ b with traditional401k := s1.1, traditionalIRA := s2.1 }, rmdAmount - s2.2)

/-- The simulation parameters destructured at the top of
`RetirementSimulator.runSingleSimulation` (absent JS fields are modelled by
`Option`/0 as appropriate; `ssAnnualBenefit || 0` makes 0 the absent
benefit). -/
structure SimParams where
  currentAge : ℕ
  retirementAge : ℕ
  expectedReturn : ℚ
  returnVolatility : ℚ
  inflationRate : ℚ
  annualSpending : ℚ
  yearsInRetirement : ℕ
  currentSavings : ℚ
  annualContribution : ℚ
  advancedMode : Bool
  accounts : Option Balances
  contributions : Option Balances
  ssAnnualBenefit : ℚ
  ssStartAge : Option ℕ
deriving DecidableEq, Repr

/-- The zero record used for absent account or contribution objects. -/
def zeroBalances : Balances := ⟨0, 0, 0, 0, 0⟩

/-- Balance initialization of `runSingleSimulation`: advanced mode with an
accounts object uses it (`|| 0` is the identity on numeric fields);
otherwise simple mode puts `currentSavings` in `traditional401k`. -/
def initialBalances (p : SimParams) : Balances :=
  match p.advancedMode, p.accounts with
  | true, some accounts => accounts
  | _, _ => ⟨p.currentSavings, 0, 0, 0, 0⟩

/-- Contribution initialization of `runSingleSimulation` (the mode test is
`advancedMode && accounts`, with `contributions?.x || 0` per field). -/
def initialContribs (p : SimParams) : Balances :=
  match p.advancedMode, p.accounts with
  | true, some _ => p.contributions.getD zeroBalances
  | _, _ => ⟨p.annualContribution, 0, 0, 0, 0⟩

/-- The JS guard `ssStartAge && currentAgeInLoop >= ssStartAge`: an absent
or zero start age is falsy and never activates Social Security. -/
def ssStartsBy (ssStartAge : Option ℕ) (age : ℕ) : Bool :=
  match ssStartAge with
  | some a => decide (a ≠ 0) && decide (a ≤ age)
  | none => false

/-- `balances.taxable += net` — the accumulation-phase credit of a
non-negative net life-event impact to the taxable account. -/
def creditTaxable (b : Balances) (x : ℚ) : Balances :=
  { b with taxable := b.taxable + x }

/-- One accumulation year of `runSingleSimulation`: apply the drawn market
return to all five accounts, add contributions, then settle the net
life-event impact — credit it to taxable when ≥ 0, otherwise run the
five-account cascade for the deficit; `none` models the early
`return { finalBalance: 0, path }` when a deficit remains. -/
def accumYear (p : SimParams) (events : List LifeEvent) (rate : ℚ) (age : ℕ)
    (b : Balances) : Option Balances :=
  let b1 := applyMarketReturns b rate
  let b2 := addContributions b1 (initialContribs p)
  let impact := getLifeEventImpact (age : ℚ) events
  let net := impact.income - impact.expense
  if 0 ≤ net then some (creditTaxable b2 net)
  else
    let w := withdrawFromAccounts b2 (-net)
    if 0 < w.2 then none else some w.1

/-- The accumulation loop (`for year = 0; year < yearsToRetirement`),
structurally recursive on the remaining years; the first component of the
fuel pair is years left, the second the current year index.  `Sum.inl`
carries the surviving balances and recorded path into the distribution
phase, `Sum.inr` the early-failure result (finalBalance forced to 0, path
truncated before this year's entry, as in the JS early return). -/
def runAccum (p : SimParams) (events : List LifeEvent) (returns : ℕ → ℚ)
    (savePath : Bool) :
    ℕ → ℕ → Balances → List (ℕ × ℚ) →
      (Balances × List (ℕ × ℚ)) ⊕ (ℚ × List (ℕ × ℚ))
  | 0, _, b, path => Sum.inl (b, path)
  | n + 1, year, b, path =>
    let age := p.currentAge + year
    match accumYear p events (returns year) age b with
    | none => Sum.inr (0, path)
    | some b' =>
      let path' := if savePath then path ++ [(age + 1, getTotalBalance b')] else path
      runAccum p events returns savePath n (year + 1) b' path'

/-- The mutable locals of the distribution loop:
balances, `currentSpending`, `ssActive`, `currentSSBenefit`. -/
structure DistState where
  balances : Balances
  currentSpending : ℚ
  ssActive : Bool
  currentSSBenefit : ℚ
deriving DecidableEq, Repr

/-- One distribution year of `runSingleSimulation`: apply the drawn market
return, activate Social Security if the start age is reached (one-way
flag), compute `netSpendingNeeded = spending − SS − event income + event
expense`, apply the RMD (when required and positive) and credit the amount
actually withdrawn against the need, satisfy any remaining positive need
through the standard cascade, then grow spending (and the SS benefit while
active) by the inflation rate. -/
def distYear (p : SimParams) (events : List LifeEvent) (rate : ℚ) (age : ℕ)
    (st : DistState) : DistState :=
  let b1 := applyMarketReturns st.balances rate
  let ssActive := st.ssActive || ssStartsBy p.ssStartAge age
  let ssThisYear := if ssActive then st.currentSSBenefit else 0
  let impact := getLifeEventImpact (age : ℚ) events
  let net0 := st.currentSpending - ssThisYear - impact.income + impact.expense
  let rmd := calculateRMD b1 age
  let rmdRes := if rmd.required ∧ 0 < rmd.amount then applyRMD b1 rmd.amount else (b1, 0)
  let net1 := net0 - rmdRes.2
  let b3 := if 0 < net1 then (withdrawFromAccounts rmdRes.1 net1).1 else rmdRes.1
  let spendingNext := st.currentSpending * (1 + p.inflationRate / 100)
  let ssBenefitNext :=
    if ssActive then st.currentSSBenefit * (1 + p.inflationRate / 100)
    else st.currentSSBenefit
  ⟨b3, spendingNext, ssActive, ssBenefitNext⟩

/-- The distribution loop (`for year = 0; year < yearsInRetirement`): run a
year, record the path entry, and break early when the total balance is
≤ 0, returning that year's balances; distribution-year draws continue the
global sequence after the `retirementAge − currentAge` accumulation
draws. -/
def runDist (p : SimParams) (events : List LifeEvent) (returns : ℕ → ℚ)
    (savePath : Bool) :
    ℕ → ℕ → DistState → List (ℕ × ℚ) → Balances × List (ℕ × ℚ)
  | 0, _, st, path => (st.balances, path)
  | n + 1, year, st, path =>
    let age := p.retirementAge + year
    let st' := distYear p events (returns (p.retirementAge - p.currentAge + year)) age st
    let totalBalance := getTotalBalance st'.balances
    let path' := if savePath then path ++ [(age + 1, totalBalance)] else path
    if totalBalance ≤ 0 then (st'.balances, path')
    else runDist p events returns savePath n (year + 1) st' path'

/-- `{ finalBalance, path }` returned by `runSingleSimulation`
(`path` is `null` unless `savePath`). -/
structure TrialResult where
  finalBalance : ℚ
  path : Option (List (ℕ × ℚ))
deriving DecidableEq, Repr

/-- `RetirementSimulator.runSingleSimulation`: initialize balances and
contributions from the parameters, run the accumulation phase, then the
distribution phase, and return the final total balance with the optional
recorded path.  The per-year market-return draws of
`generateNormalRandom(expectedReturn / 100, returnVolatility / 100)` are
abstracted as the sequence `returns`; the JS call site passes no `randomFn`
argument, so this sequence stands for draws from the implicit global
default `Math.random`, not from any injectable source. -/
def runSingleSimulation (p : SimParams) (events : List LifeEvent)
    (returns : ℕ → ℚ) (savePath : Bool) : TrialResult :=
  let yearsToRetirement := p.retirementAge - p.currentAge
  let b0 := initialBalances p
  let path0 := if savePath then [(p.currentAge, getTotalBalance b0)] else []
  match runAccum p events returns savePath yearsToRetirement 0 b0 path0 with
  | Sum.inr fail => ⟨fail.1, if savePath then some fail.2 else none⟩
  | Sum.inl ok =>
    let r := runDist p events returns savePath p.yearsInRetirement 0
      ⟨ok.1, p.annualSpending, false, p.ssAnnualBenefit⟩ ok.2
    ⟨getTotalBalance r.1, if savePath then some r.2 else none⟩

/-- Non-negative balances have a non-negative total. -/
theorem getTotalBalance_nonneg {b : Balances} (hb : NonnegB b) :
    0 ≤ getTotalBalance b := by
  obtain ⟨h1, h2, h3, h4, h5⟩ := hb
  unfold getTotalBalance
  linarith

/-- A withdrawal step never drives its balance negative. -/
theorem nonneg_withdrawStep_fst {balance : ℚ} (hb : 0 ≤ balance)
    (remaining : ℚ) : 0 ≤ (withdrawStep balance remaining).1 := by
  unfold withdrawStep
  split_ifs with h
  · simp only
    have := min_le_left balance remaining
    linarith
  · exact hb

/-- Market returns with rate ≥ −100% preserve non-negative balances. -/
theorem nonneg_applyMarketReturns {b : Balances} {rate : ℚ}
    (hb : NonnegB b) (hr : -1 ≤ rate) : NonnegB (applyMarketReturns b rate) := by
  obtain ⟨h1, h2, h3, h4, h5⟩ := hb
  have hrr : (0 : ℚ) ≤ 1 + rate := by linarith
  exact ⟨mul_nonneg h1 hrr, mul_nonneg h2 hrr, mul_nonneg h3 hrr,
    mul_nonneg h4 hrr, mul_nonneg h5 hrr⟩

/-- Adding non-negative contributions preserves non-negative balances. -/
theorem nonneg_addContributions {b c : Balances}
    (hb : NonnegB b) (hc : NonnegB c) : NonnegB (addContributions b c) := by
  obtain ⟨h1, h2, h3, h4, h5⟩ := hb
  obtain ⟨k1, k2, k3, k4, k5⟩ := hc
  exact ⟨add_nonneg h1 k1, add_nonneg h2 k2, add_nonneg h3 k3,
    add_nonneg h4 k4, add_nonneg h5 k5⟩

/-- Crediting a non-negative amount to taxable preserves non-negativity. -/
theorem nonneg_creditTaxable {b : Balances} {x : ℚ}
    (hb : NonnegB b) (hx : 0 ≤ x) : NonnegB (creditTaxable b x) := by
  obtain ⟨h1, h2, h3, h4, h5⟩ := hb
  exact ⟨h1, h2, h3, h4, by simp only [creditTaxable]; linarith⟩

/-- The withdrawal waterfall preserves non-negative balances, for any
requested amount. -/
theorem nonneg_withdrawFromAccounts {b : Balances} (hb : NonnegB b)
    (amount : ℚ) : NonnegB (withdrawFromAccounts b amount).1 := by
  obtain ⟨h1, h2, h3, h4, h5⟩ := hb
  exact ⟨nonneg_withdrawStep_fst h1 _, nonneg_withdrawStep_fst h2 _,
    nonneg_withdrawStep_fst h3 _, nonneg_withdrawStep_fst h4 _,
    nonneg_withdrawStep_fst h5 _⟩

/-- The RMD withdrawal preserves non-negative balances. -/
theorem nonneg_applyRMD {b : Balances} (hb : NonnegB b) (rmdAmount : ℚ) :
    NonnegB (applyRMD b rmdAmount).1 := by
  obtain ⟨h1, h2, h3, h4, h5⟩ := hb
  exact ⟨nonneg_withdrawStep_fst h1 _, h2, nonneg_withdrawStep_fst h3 _,
    h4, h5⟩

/-- The RMD branch of a distribution year preserves non-negativity. -/
theorem nonneg_rmdBranch {b : Balances} (hb : NonnegB b) (c : Prop)
    [Decidable c] (a : ℚ) : NonnegB (if c then applyRMD b a else (b, 0)).1 := by
  split_ifs with h
  · exact nonneg_applyRMD hb a
  · exact hb

/-- The spend-settling branch of a distribution year preserves
non-negativity. -/
theorem nonneg_spendBranch {b : Balances} (hb : NonnegB b) (c : Prop)
    [Decidable c] (a : ℚ) :
    NonnegB (if c then (withdrawFromAccounts b a).1 else b) := by
  split_ifs with h
  · exact nonneg_withdrawFromAccounts hb a
  · exact hb

/-- A distribution year preserves non-negative balances when the drawn
rate is ≥ −100%. -/
theorem nonneg_distYear {p : SimParams} {events : List LifeEvent} {rate : ℚ}
    {age : ℕ} {st : DistState} (hst : NonnegB st.balances) (hr : -1 ≤ rate) :
    NonnegB (distYear p events rate age st).balances := by
  have hb1 := nonneg_applyMarketReturns hst hr
  exact nonneg_spendBranch (nonneg_rmdBranch hb1 _ _) _ _

/-- An accumulation year that survives preserves non-negative balances,
when the drawn rate is ≥ −100% and the contributions are non-negative. -/
theorem nonneg_accumYear {p : SimParams} {events : List LifeEvent} {rate : ℚ}
    {age : ℕ} {b b' : Balances} (hb : NonnegB b) (hr : -1 ≤ rate)
    (hc : NonnegB (initialContribs p))
    (h : accumYear p events rate age b = some b') : NonnegB b' := by
  have hb2 : NonnegB (addContributions (applyMarketReturns b rate)
      (initialContribs p)) :=
    nonneg_addContributions (nonneg_applyMarketReturns hb hr) hc
  simp only [accumYear] at h
  split_ifs at h with h1 h2
  · obtain rfl := Option.some_injective _ h
    exact nonneg_creditTaxable hb2 h1
  · obtain rfl := Option.some_injective _ h
    exact nonneg_withdrawFromAccounts hb2 _

/-- Along the accumulation loop, surviving balances stay non-negative and
an early failure reports exactly 0. -/
theorem runAccum_nonneg (p : SimParams) (events : List LifeEvent)
    (returns : ℕ → ℚ) (savePath : Bool)
    (hc : NonnegB (initialContribs p)) (hret : ∀ k, -1 ≤ returns k) :
    ∀ n year b path, NonnegB b →
      (∀ res, runAccum p events returns savePath n year b path = Sum.inl res →
        NonnegB res.1) ∧
      (∀ res, runAccum p events returns savePath n year b path = Sum.inr res →
        res.1 = 0) := by
  intro n
  induction n with
  | zero =>
    intro year b path hb
    constructor
    · intro res hres
      simp only [runAccum] at hres
      injection hres with h
      subst h
      exact hb
    · intro res hres
      simp only [runAccum] at hres
      exact Sum.noConfusion hres
  | succ m ih =>
    intro year b path hb
    constructor
    · intro res hres
      simp only [runAccum] at hres
      rcases hy : accumYear p events (returns year) (p.currentAge + year) b with
        _ | b'
      · rw [hy] at hres
        simp at hres
      · rw [hy] at hres
        simp only at hres
        exact (ih (year + 1) b' _ (nonneg_accumYear hb (hret year) hc hy)).1
          res hres
    · intro res hres
      simp only [runAccum] at hres
      rcases hy : accumYear p events (returns year) (p.currentAge + year) b with
        _ | b'
      · rw [hy] at hres
        simp only at hres
        injection hres with h
        subst h
        rfl
      · rw [hy] at hres
        simp only at hres
        exact (ih (year + 1) b' _ (nonneg_accumYear hb (hret year) hc hy)).2
          res hres

/-- The distribution loop preserves non-negative balances when every drawn
rate is ≥ −100%. -/
theorem runDist_nonneg (p : SimParams) (events : List LifeEvent)
    (returns : ℕ → ℚ) (savePath : Bool) (hret : ∀ k, -1 ≤ returns k) :
    ∀ n year st path, NonnegB st.balances →
      NonnegB (runDist p events returns savePath n year st path).1 := by
  intro n
  induction n with
  | zero =>
    intro year st path hst
    simpa only [runDist] using hst
  | succ m ih =>
    intro year st path hst
    simp only [runDist]
    generalize hgen : distYear p events
      (returns (p.retirementAge - p.currentAge + year))
      (p.retirementAge + year) st = st2
    have hst2 : NonnegB st2.balances := hgen ▸ nonneg_distYear hst (hret _)
    split_ifs <;> first
      | exact hst2
      | exact ih (year + 1) st2 _ hst2

/-- Under rates ≥ −100% and non-negative initial balances and
contributions, a trial's final balance is never negative. -/
theorem runSingleSimulation_nonneg (p : SimParams) (events : List LifeEvent)
    (returns : ℕ → ℚ) (savePath : Bool)
    (hb0 : NonnegB (initialBalances p)) (hc : NonnegB (initialContribs p))
    (hret : ∀ k, -1 ≤ returns k) :
    0 ≤ (runSingleSimulation p events returns savePath).finalBalance := by
  unfold runSingleSimulation
  have hacc := runAccum_nonneg p events returns savePath hc hret
    (p.retirementAge - p.currentAge) 0 (initialBalances p)
    (if savePath then [(p.currentAge, getTotalBalance (initialBalances p))]
      else []) hb0
  rcases hrun : runAccum p events returns savePath
      (p.retirementAge - p.currentAge) 0 (initialBalances p)
      (if savePath then [(p.currentAge, getTotalBalance (initialBalances p))]
        else []) with ok | fail
  · simp only [hrun]
    exact getTotalBalance_nonneg
      (runDist_nonneg p events returns savePath hret p.yearsInRetirement 0
        ⟨ok.1, p.annualSpending, false, p.ssAnnualBenefit⟩ ok.2
        (hacc.1 ok hrun))
  · simp only [hrun]
    exact le_of_eq (hacc.2 fail hrun).symm

/-- Claim C3 (amended): from non-negative balances, every operation of the
per-trial state machine — market-return application provided the sampled
rate is ≥ −100%, contribution addition with non-negative contributions,
life-event credit of the (necessarily non-negative) credited net, waterfall
withdrawal for any amount, and RMD application — yields non-negative
balances again.  (The unamended claim, quantifying over every sampled rate,
fails: a rate below −100% drives balances negative; see the
counterexample.) -/
theorem trial_ops_preserve_nonneg (b c : Balances) (rate x amount rmdAmount : ℚ)
    (hb : NonnegB b) (hc : NonnegB c) (hrate : -1 ≤ rate) (hx : 0 ≤ x) :
    NonnegB (applyMarketReturns b rate) ∧
    NonnegB (addContributions b c) ∧
    NonnegB (creditTaxable b x) ∧
    NonnegB (withdrawFromAccounts b amount).1 ∧
    NonnegB (applyRMD b rmdAmount).1 :=
  ⟨nonneg_applyMarketReturns hb hrate, nonneg_addContributions hb hc,
    nonneg_creditTaxable hb hx, nonneg_withdrawFromAccounts hb amount,
    nonneg_applyRMD hb rmdAmount⟩

/-- Witness for C3 at concrete balances and a −50% return. -/
theorem trial_ops_preserve_nonneg_witness :
    NonnegB (applyMarketReturns ⟨1, 2, 3, 4, 5⟩ (-1 / 2)) ∧
    NonnegB (addContributions ⟨1, 2, 3, 4, 5⟩ ⟨1, 1, 1, 1, 1⟩) ∧
    NonnegB (creditTaxable ⟨1, 2, 3, 4, 5⟩ 7) ∧
    NonnegB (withdrawFromAccounts ⟨1, 2, 3, 4, 5⟩ 3).1 ∧
    NonnegB (applyRMD ⟨1, 2, 3, 4, 5⟩ 2).1 :=
  trial_ops_preserve_nonneg ⟨1, 2, 3, 4, 5⟩ ⟨1, 1, 1, 1, 1⟩ (-1 / 2) 7 3 2
    (by decide) (by decide) (by norm_num) (by norm_num)

/-- Counterexample to C3 as stated: a sampled return rate of −200% maps the
non-negative record with taxable = 100 to one with taxable = −100, so the
market-return operation does not preserve the invariant for every sequence
of sampled return rates. -/
theorem trial_ops_counterexample :
    NonnegB ⟨0, 0, 0, 0, 100⟩ ∧
      ¬ NonnegB (applyMarketReturns ⟨0, 0, 0, 0, 100⟩ (-2)) := by
  constructor
  · exact ⟨le_refl 0, le_refl 0, le_refl 0, le_refl 0, by norm_num⟩
  · intro hcon
    obtain ⟨-, -, -, -, h5⟩ := hcon
    simp only [applyMarketReturns] at h5
    norm_num at h5

/-- Claim C2 (amended): if a distribution year ends with total balance ≤ 0
then the year loop stops at that year, returning exactly that year's
balances and path; when additionally every sampled rate is ≥ −100% and the
initial balances and contributions are non-negative, that terminal total —
and hence the trial's finalBalance — is exactly 0 and in particular never
negative.  (The unamended claim fails for rates below −100%, where the
returned finalBalance is the negative total itself; see the
counterexample.) -/
theorem distribution_depletion_spec (p : SimParams) (events : List LifeEvent)
    (returns : ℕ → ℚ) (savePath : Bool) (n year : ℕ) (st : DistState)
    (path : List (ℕ × ℚ))
    (hret : ∀ k, -1 ≤ returns k)
    (hb0 : NonnegB (initialBalances p)) (hc : NonnegB (initialContribs p))
    (hst : NonnegB st.balances)
    (hdep : getTotalBalance (distYear p events
      (returns (p.retirementAge - p.currentAge + year))
      (p.retirementAge + year) st).balances ≤ 0) :
    (runDist p events returns savePath (n + 1) year st path =
      ((distYear p events (returns (p.retirementAge - p.currentAge + year))
          (p.retirementAge + year) st).balances,
        if savePath then
          path ++ [(p.retirementAge + year + 1,
            getTotalBalance (distYear p events
              (returns (p.retirementAge - p.currentAge + year))
              (p.retirementAge + year) st).balances)]
        else path)) ∧
    getTotalBalance (distYear p events
      (returns (p.retirementAge - p.currentAge + year))
      (p.retirementAge + year) st).balances = 0 ∧
    0 ≤ (runSingleSimulation p events returns savePath).finalBalance := by
  refine ⟨?_, ?_,
    runSingleSimulation_nonneg p events returns savePath hb0 hc hret⟩
  · simp only [runDist]
    rw [if_pos hdep]
  · exact le_antisymm hdep
      (getTotalBalance_nonneg (nonneg_distYear hst (hret _)))

/-- Spending 100 against a single taxable balance of 50: the depleting
distribution year of the C2 witness. -/
def pDepletion : SimParams :=
  ⟨65, 65, 0, 0, 0, 100, 2, 0, 0, false, none, none, 0, none⟩

/-- The distribution state entering the depleting year of the C2 witness. -/
def stDepletion : DistState := ⟨⟨0, 0, 0, 0, 50⟩, 100, false, 0⟩

/-- Witness for C2: with zero-rate draws and spending 100 against a taxable
balance of 50, the first distribution year depletes the accounts, the loop
stops there, and the terminal total is exactly 0. -/
theorem distribution_depletion_spec_witness :
    (runDist pDepletion [] (fun _ => 0) false 1 0 stDepletion [] =
      ((distYear pDepletion [] 0 65 stDepletion).balances, [])) ∧
    getTotalBalance (distYear pDepletion [] 0 65 stDepletion).balances = 0 ∧
    0 ≤ (runSingleSimulation pDepletion [] (fun _ => 0) false).finalBalance := by
  have h := distribution_depletion_spec pDepletion [] (fun _ => 0) false 0 0
    stDepletion [] (fun k => by norm_num)
    (by simp [initialBalances, pDepletion, NonnegB])
    (by simp [initialContribs, pDepletion, NonnegB])
    (by simp [stDepletion, NonnegB])
    (by norm_num [pDepletion, stDepletion, distYear, applyMarketReturns,
      ssStartsBy, getLifeEventImpact, calculateRMD, RMD_START_AGE,
      withdrawFromAccounts, withdrawStep, applyRMD, getTotalBalance])
  exact h

/-- Advanced-mode parameters with a single taxable balance of 100 and no
spending, used by the C2 counterexample and the C4 counterexample. -/
def pTaxable100 : SimParams :=
  ⟨65, 65, 0, 0, 0, 0, 2, 0, 0, true, some ⟨0, 0, 0, 0, 100⟩,
    some zeroBalances, 0, none⟩

/-- Counterexample to C2 as stated: a sampled rate of −200% makes the first
distribution year end with total balance −100 ≤ 0; the loop does end early,
but the trial's finalBalance is −100, not 0 (the code returns the negative
total unclamped). -/
theorem distribution_depletion_counterexample :
    getTotalBalance (distYear pTaxable100 [] (-2) 65
      ⟨initialBalances pTaxable100, 0, false, 0⟩).balances ≤ 0 ∧
    (runSingleSimulation pTaxable100 [] (fun _ => -2) false).finalBalance
      = -100 ∧
    (runSingleSimulation pTaxable100 [] (fun _ => -2) false).finalBalance
      ≠ 0 := by
  refine ⟨?_, ?_, ?_⟩
  · norm_num [pTaxable100, initialBalances, distYear, applyMarketReturns,
      ssStartsBy, getLifeEventImpact, calculateRMD, RMD_START_AGE,
      withdrawFromAccounts, withdrawStep, applyRMD, getTotalBalance]
  · norm_num [pTaxable100, runSingleSimulation, initialBalances,
      initialContribs, runAccum, runDist, distYear, applyMarketReturns,
      ssStartsBy, getLifeEventImpact, calculateRMD, RMD_START_AGE,
      withdrawFromAccounts, withdrawStep, applyRMD, getTotalBalance,
      zeroBalances]
  · norm_num [pTaxable100, runSingleSimulation, initialBalances,
      initialContribs, runAccum, runDist, distYear, applyMarketReturns,
      ssStartsBy, getLifeEventImpact, calculateRMD, RMD_START_AGE,
      withdrawFromAccounts, withdrawStep, applyRMD, getTotalBalance,
      zeroBalances]

/-- The injectable uniform source next to the global one: the `randomFn`
parameter of `generateNormalRandom` is injectable, but
`runSingleSimulation` calls `generateNormalRandom(mean, stdDev)` with no
third argument, so any injected source is unused and every draw comes from
the implicit global default (`Math.random`), abstracted as
`globalReturns`. -/
def runSingleSimulationInjected (p : SimParams) (events : List LifeEvent)
    (injected : ℕ → ℚ) (globalReturns : ℕ → ℚ) (savePath : Bool) :
    TrialResult :=
  runSingleSimulation p events globalReturns savePath

/-- Counterexample to C4 as stated: two runs with identical parameters,
life events, and injected uniform source produce different results, because
the trial's stochastic calls fall back to the implicit global default
rather than receiving the injected source. -/
theorem injected_source_counterexample :
    (runSingleSimulationInjected pTaxable100 [] (fun _ => 0) (fun _ => 0)
      false).finalBalance = 100 ∧
    (runSingleSimulationInjected pTaxable100 [] (fun _ => 0) (fun _ => -2)
      false).finalBalance = -100 ∧
    runSingleSimulationInjected pTaxable100 [] (fun _ => 0) (fun _ => 0)
      false ≠
      runSingleSimulationInjected pTaxable100 [] (fun _ => 0) (fun _ => -2)
        false := by
  refine ⟨?_, ?_, ?_⟩
  · norm_num [pTaxable100, runSingleSimulationInjected, runSingleSimulation,
      initialBalances, initialContribs, runAccum, runDist, distYear,
      applyMarketReturns, ssStartsBy, getLifeEventImpact, calculateRMD,
      RMD_START_AGE, withdrawFromAccounts, withdrawStep, applyRMD,
      getTotalBalance, zeroBalances]
  · norm_num [pTaxable100, runSingleSimulationInjected, runSingleSimulation,
      initialBalances, initialContribs, runAccum, runDist, distYear,
      applyMarketReturns, ssStartsBy, getLifeEventImpact, calculateRMD,
      RMD_START_AGE, withdrawFromAccounts, withdrawStep, applyRMD,
      getTotalBalance, zeroBalances]
  · intro hcon
    have h1 : (runSingleSimulationInjected pTaxable100 [] (fun _ => 0)
        (fun _ => 0) false).finalBalance = 100 := by
      norm_num [pTaxable100, runSingleSimulationInjected, runSingleSimulation,
        initialBalances, initialContribs, runAccum, runDist, distYear,
        applyMarketReturns, ssStartsBy, getLifeEventImpact, calculateRMD,
        RMD_START_AGE, withdrawFromAccounts, withdrawStep, applyRMD,
        getTotalBalance, zeroBalances]
    have h2 : (runSingleSimulationInjected pTaxable100 [] (fun _ => 0)
        (fun _ => -2) false).finalBalance = -100 := by
      norm_num [pTaxable100, runSingleSimulationInjected, runSingleSimulation,
        initialBalances, initialContribs, runAccum, runDist, distYear,
        applyMarketReturns, ssStartsBy, getLifeEventImpact, calculateRMD,
        RMD_START_AGE, withdrawFromAccounts, withdrawStep, applyRMD,
        getTotalBalance, zeroBalances]
    rw [hcon, h2] at h1
    norm_num at h1

/-- Claim C4 (amended): a trial is a deterministic pure function of its
parameters, life events, and the sequence of draws taken from the global
default source — runs whose global draw sequences agree pointwise produce
identical results (finalBalance and path).  Determinism in an injected
source fails, since no injected source reaches the trial's stochastic
calls; see the counterexample. -/
theorem runSingleSimulation_deterministic (p : SimParams)
    (events : List LifeEvent) (savePath : Bool) (g1 g2 : ℕ → ℚ)
    (h : ∀ k, g1 k = g2 k) :
    runSingleSimulation p events g1 savePath =
      runSingleSimulation p events g2 savePath := by
  rw [funext h]

/-- Witness for C4 on two pointwise-equal draw sequences. -/
theorem runSingleSimulation_deterministic_witness :
    runSingleSimulation pTaxable100 [] (fun _ => 0) false =
      runSingleSimulation pTaxable100 [] (fun k => 0 * (k : ℚ)) false :=
  runSingleSimulation_deterministic pTaxable100 [] false (fun _ => 0)
    (fun k => 0 * (k : ℚ)) (fun k => (zero_mul (k : ℚ)).symm)

/-- The `{ successRate, median, percentile10, percentile90 }` record
returned by `getStatistics`. -/
structure Stats where
  successRate : ℚ
  median : ℚ
  percentile10 : ℚ
  percentile90 : ℚ
deriving DecidableEq, Repr

/-- `getStatistics` of the statistics module (and the identical
`RetirementSimulator.getStatistics`): empty input gives all zeros;
otherwise sort ascending, `successRate = successes / N × 100` counting
strictly positive balances, and nearest-rank percentiles at indices
`floor(N × 0.5)`, `floor(N × 0.1)`, `floor(N × 0.9)` (the JS
`sorted[i] || 0` is `getD i 0`: out-of-range gives 0, and a stored 0 is
returned as 0 either way). -/
def getStatistics (endingBalances : List ℚ) : Stats :=
  if endingBalances.length = 0 then ⟨0, 0, 0, 0⟩
  else
    let sorted := endingBalances.mergeSort (fun a b => decide (a ≤ b))
    let numSimulations := endingBalances.length
    let successes := (sorted.filter (fun b => decide (0 < b))).length
    let successRate := ((successes : ℚ) / numSimulations) * 100
    let medianIndex := Nat.floor ((numSimulations : ℚ) * 0.5)
    let p10Index := Nat.floor ((numSimulations : ℚ) * 0.1)
    let p90Index := Nat.floor ((numSimulations : ℚ) * 0.9)
    ⟨successRate, sorted.getD medianIndex 0, sorted.getD p10Index 0,
      sorted.getD p90Index 0⟩

/-- Claim C8: `getStatistics` on empty input returns all zeros; on a
non-empty list of N balances the success rate is
`100 × (count of strictly positive values) / N` — hence exactly 100 when
every value is positive — and the median and 10th/90th percentiles are the
sorted list's entries at the nearest-rank indices `floor(N × fraction)`,
each of which lies strictly below N (no interpolation). -/
theorem getStatistics_spec (l lpos : List ℚ) (hne : l ≠ [])
    (hposne : lpos ≠ []) (hpos : ∀ x ∈ lpos, 0 < x) :
    getStatistics [] = ⟨0, 0, 0, 0⟩ ∧
    (getStatistics l).successRate =
      100 * ((l.filter (fun b => decide (0 < b))).length : ℚ) / l.length ∧
    (getStatistics lpos).successRate = 100 ∧
    ((getStatistics l).median =
        (l.mergeSort (fun a b => decide (a ≤ b))).getD
          (Nat.floor ((l.length : ℚ) * 0.5)) 0 ∧
      (getStatistics l).percentile10 =
        (l.mergeSort (fun a b => decide (a ≤ b))).getD
          (Nat.floor ((l.length : ℚ) * 0.1)) 0 ∧
      (getStatistics l).percentile90 =
        (l.mergeSort (fun a b => decide (a ≤ b))).getD
          (Nat.floor ((l.length : ℚ) * 0.9)) 0) ∧
    (Nat.floor ((l.length : ℚ) * 0.5) < l.length ∧
      Nat.floor ((l.length : ℚ) * 0.1) < l.length ∧
      Nat.floor ((l.length : ℚ) * 0.9) < l.length) := by
  have hN : l.length ≠ 0 := fun h => hne (List.length_eq_zero.mp h)
  have hNpos : lpos.length ≠ 0 := fun h => hposne (List.length_eq_zero.mp h)
  have hN1 : (1 : ℚ) ≤ (l.length : ℚ) := by
    have := Nat.one_le_iff_ne_zero.mpr hN
    exact_mod_cast this
  refine ⟨rfl, ?_, ?_, ⟨?_, ?_, ?_⟩, ?_, ?_, ?_⟩
  · simp only [getStatistics, if_neg hN]
    have hperm := List.mergeSort_perm l (fun a b => decide (a ≤ b))
    have hcount : ((l.mergeSort (fun a b => decide (a ≤ b))).filter
        (fun b => decide (0 < b))).length =
        (l.filter (fun b => decide (0 < b))).length := by
      rw [← List.countP_eq_length_filter, ← List.countP_eq_length_filter]
      exact hperm.countP_eq _
    rw [hcount]
    ring
  · simp only [getStatistics, if_neg hNpos]
    have hperm := List.mergeSort_perm lpos (fun a b => decide (a ≤ b))
    have hfil : ((lpos.mergeSort (fun a b => decide (a ≤ b))).filter
        (fun b => decide (0 < b))).length = lpos.length := by
      rw [List.filter_eq_self.mpr, List.length_mergeSort]
      intro a ha
      exact decide_eq_true (hpos a (hperm.mem_iff.mp ha))
    rw [hfil, div_self (Nat.cast_ne_zero.mpr hNpos)]
    ring
  · simp only [getStatistics, if_neg hN]
  · simp only [getStatistics, if_neg hN]
  · simp only [getStatistics, if_neg hN]
  · rw [Nat.floor_lt (by positivity)]
    linarith
  · rw [Nat.floor_lt (by positivity)]
    linarith
  · rw [Nat.floor_lt (by positivity)]
    linarith

/-- Witness for C8 on a mixed list and an all-positive list. -/
theorem getStatistics_spec_witness :
    (getStatistics [(3 : ℚ), -1, 0, 5]).successRate =
      100 * (([(3 : ℚ), -1, 0, 5].filter (fun b => decide (0 < b))).length : ℚ) /
        ([(3 : ℚ), -1, 0, 5] : List ℚ).length ∧
    (getStatistics [(2 : ℚ), 1]).successRate = 100 := by
  have h := getStatistics_spec [(3 : ℚ), -1, 0, 5] [(2 : ℚ), 1]
    (by simp) (by simp) (by norm_num)
  exact ⟨h.2.1, h.2.2.1⟩

/-- The `{ labels, data }` record returned by `getHistogramData`. -/
structure HistData where
  labels : List String
  data : List ℕ
deriving DecidableEq, Repr

/-- `Math.min(...list)` over a non-empty list (the empty case cannot be
reached in `getHistogramData`). -/
def jsMin : List ℚ → ℚ
  | [] => 0
  | x :: xs => xs.foldl min x

/-- `Math.max(...list)` over a non-empty list. -/
def jsMax : List ℚ → ℚ
  | [] => 0
  | x :: xs => xs.foldl max x

/-- `bins[i]++`: increment the i-th counter (out-of-range indices leave the
list unchanged; the call site always passes an in-range index). -/
def incrNth : List ℕ → ℕ → List ℕ
  | [], _ => []
  | x :: xs, 0 => (x + 1) :: xs
  | x :: xs, n + 1 => x :: incrNth xs n

/-- The bin index of one balance:
`range === 0 ? 0 : Math.min(Math.floor((balance − min) / binWidth),
numBins − 1)` (the `Int.toNat` is exact since the call site has
`balance ≥ min` and a positive bin width). -/
def binIndexOf (range mn binWidth : ℚ) (numBins : ℕ) (balance : ℚ) : ℕ :=
  if range = 0 then 0
  else (min ⌊(balance - mn) / binWidth⌋ ((numBins : ℤ) - 1)).toNat

/-- `getHistogramData` of the statistics module (and the identical
`RetirementSimulator.getHistogramData`), with the currency formatter for
labels passed explicitly. -/
def getHistogramData (endingBalances : List ℚ) (numBins : ℕ)
    (formatCurrency : ℚ → String) : HistData :=
  if endingBalances.length = 0 then ⟨["No Data"], [0]⟩
  else
    let sorted := endingBalances.mergeSort (fun a b => decide (a ≤ b))
    let mn := jsMin sorted
    let mx := jsMax sorted
    let range := mx - mn
    let binWidth := if range = 0 then 1 else range / numBins
    let labels := (List.range numBins).map
      (fun i => formatCurrency (mn + i * binWidth))
    let bins := sorted.foldl
      (fun acc balance => incrNth acc (binIndexOf range mn binWidth numBins balance))
      (List.replicate numBins 0)
    ⟨labels, bins⟩

/-- `incrNth` preserves length. -/
theorem length_incrNth : ∀ (l : List ℕ) (i : ℕ), (incrNth l i).length = l.length := by
  intro l
  induction l with
  | nil => intro i; rfl
  | cons x xs ih =>
    intro i
    cases i with
    | zero => rfl
    | succ n => simpa [incrNth] using ih n

/-- `incrNth` at an in-range index increases the sum by one. -/
theorem sum_incrNth : ∀ (l : List ℕ) (i : ℕ), i < l.length →
    (incrNth l i).sum = l.sum + 1 := by
  intro l
  induction l with
  | nil => intro i h; simp at h
  | cons x xs ih =>
    intro i h
    cases i with
    | zero => simp [incrNth]; omega
    | succ n =>
      have := ih n (by simpa using h)
      simp [incrNth, this]
      omega

/-- Every bin index is strictly below the bin count. -/
theorem binIndexOf_lt (range mn binWidth balance : ℚ) {numBins : ℕ}
    (hk : 0 < numBins) :
    binIndexOf range mn binWidth numBins balance < numBins := by
  unfold binIndexOf
  split_ifs with h
  · exact hk
  · have hmin : min ⌊(balance - mn) / binWidth⌋ ((numBins : ℤ) - 1) ≤
        (numBins : ℤ) - 1 := min_le_right _ _
    omega

/-- Folding bin increments over a list whose indices all lie below the
accumulator's length adds the list's length to the total count. -/
theorem foldl_incrNth_sum (f : ℚ → ℕ) (k : ℕ) :
    ∀ (l : List ℚ) (acc : List ℕ), acc.length = k → (∀ b ∈ l, f b < k) →
      (l.foldl (fun a b => incrNth a (f b)) acc).sum = acc.sum + l.length := by
  intro l
  induction l with
  | nil => intro acc _ _; simp
  | cons b bs ih =>
    intro acc hlen hf
    rw [List.foldl_cons]
    have hstep := ih (incrNth acc (f b))
      (by rw [length_incrNth]; exact hlen)
      (fun x hx => hf x (List.mem_cons_of_mem b hx))
    rw [hstep, sum_incrNth acc (f b) (by rw [hlen]; exact hf b (List.mem_cons_self _ _))]
    simp
    omega

/-- Folding bin increments that all hit bin 0 puts the whole count in the
head bin. -/
theorem foldl_incrNth_zero (f : ℚ → ℕ) :
    ∀ (l : List ℚ) (x : ℕ) (xs : List ℕ), (∀ b ∈ l, f b = 0) →
      l.foldl (fun a b => incrNth a (f b)) (x :: xs) = (x + l.length) :: xs := by
  intro l
  induction l with
  | nil => intro x xs _; simp
  | cons b bs ih =>
    intro x xs hf
    rw [List.foldl_cons, hf b (List.mem_cons_self _ _)]
    rw [show incrNth (x :: xs) 0 = (x + 1) :: xs from rfl]
    rw [ih (x + 1) xs (fun y hy => hf y (List.mem_cons_of_mem b hy))]
    simp
    omega

/-- A fold of `min` over elements all equal to `c`, started at `c`,
stays `c`. -/
theorem foldl_min_const (c : ℚ) :
    ∀ (l : List ℚ), (∀ x ∈ l, x = c) → l.foldl min c = c := by
  intro l
  induction l with
  | nil => intro _; rfl
  | cons x xs ih =>
    intro h
    rw [List.foldl_cons, h x (List.mem_cons_self _ _), min_self]
    exact ih (fun y hy => h y (List.mem_cons_of_mem x hy))

/-- A fold of `max` over elements all equal to `c`, started at `c`,
stays `c`. -/
theorem foldl_max_const (c : ℚ) :
    ∀ (l : List ℚ), (∀ x ∈ l, x = c) → l.foldl max c = c := by
  intro l
  induction l with
  | nil => intro _; rfl
  | cons x xs ih =>
    intro h
    rw [List.foldl_cons, h x (List.mem_cons_self _ _), max_self]
    exact ih (fun y hy => h y (List.mem_cons_of_mem x hy))

/-- On a list of equal values, `jsMin` returns that value. -/
theorem jsMin_const {l : List ℚ} {c : ℚ} (hne : l ≠ [])
    (h : ∀ x ∈ l, x = c) : jsMin l = c := by
  cases l with
  | nil => exact absurd rfl hne
  | cons x xs =>
    unfold jsMin
    rw [h x (List.mem_cons_self _ _)]
    exact foldl_min_const c xs (fun y hy => h y (List.mem_cons_of_mem x hy))

/-- On a list of equal values, `jsMax` returns that value. -/
theorem jsMax_const {l : List ℚ} {c : ℚ} (hne : l ≠ [])
    (h : ∀ x ∈ l, x = c) : jsMax l = c := by
  cases l with
  | nil => exact absurd rfl hne
  | cons x xs =>
    unfold jsMax
    rw [h x (List.mem_cons_self _ _)]
    exact foldl_max_const c xs (fun y hy => h y (List.mem_cons_of_mem x hy))

/-- Claim C9: `getHistogramData` on empty input returns the single
"No Data" placeholder bin; on non-empty input with a positive bin count
every value's clamped bin index lies below the bin count and the bin
counts sum exactly to the number of input values; and when all values are
equal the range is 0 (so the code forces `binWidth = 1`) and every value
lands in bin 0, the counts still summing to the input length. -/
theorem getHistogramData_spec (l lc : List ℚ) (numBins : ℕ) (f : ℚ → String)
    (c : ℚ) (hne : l ≠ []) (hk : 0 < numBins) (hcne : lc ≠ [])
    (hconst : ∀ x ∈ lc, x = c) :
    getHistogramData [] numBins f = ⟨["No Data"], [0]⟩ ∧
    (getHistogramData l numBins f).data.sum = l.length ∧
    (∀ range mn bw v : ℚ, binIndexOf range mn bw numBins v < numBins) ∧
    jsMax (lc.mergeSort (fun a b => decide (a ≤ b))) -
      jsMin (lc.mergeSort (fun a b => decide (a ≤ b))) = 0 ∧
    (getHistogramData lc numBins f).data =
      lc.length :: List.replicate (numBins - 1) 0 ∧
    (getHistogramData lc numBins f).data.sum = lc.length := by
  have hN : l.length ≠ 0 := fun h => hne (List.length_eq_zero.mp h)
  have hNc : lc.length ≠ 0 := fun h => hcne (List.length_eq_zero.mp h)
  have hsc : ∀ x ∈ lc.mergeSort (fun a b => decide (a ≤ b)), x = c := by
    intro x hx
    exact hconst x ((List.mergeSort_perm lc _).mem_iff.mp hx)
  have hscne : lc.mergeSort (fun a b => decide (a ≤ b)) ≠ [] := by
    intro h
    apply hNc
    have hlen := congrArg List.length h
    rwa [List.length_mergeSort] at hlen
  have hrange : jsMax (lc.mergeSort (fun a b => decide (a ≤ b))) -
      jsMin (lc.mergeSort (fun a b => decide (a ≤ b))) = 0 := by
    rw [jsMax_const hscne hsc, jsMin_const hscne hsc, sub_self]
  have hrep : (List.replicate numBins (0 : ℕ)) =
      0 :: List.replicate (numBins - 1) 0 := by
    cases numBins with
    | zero => exact absurd hk (by omega)
    | succ m => simp [List.replicate_succ]
  have hdata : (getHistogramData lc numBins f).data =
      lc.length :: List.replicate (numBins - 1) 0 := by
    simp only [getHistogramData, if_neg hNc]
    rw [hrange]
    simp only [binIndexOf, eq_self_iff_true, if_true]
    rw [hrep, foldl_incrNth_zero (fun _ => 0) _ 0 _ (fun _ _ => rfl)]
    simp [List.length_mergeSort]
  refine ⟨rfl, ?_, fun range mn bw v => binIndexOf_lt range mn bw v hk,
    hrange, hdata, ?_⟩
  · simp only [getHistogramData, if_neg hN]
    rw [foldl_incrNth_sum (binIndexOf _ _ _ numBins) numBins _ _
      (List.length_replicate _ _) (fun b _ => binIndexOf_lt _ _ _ b hk)]
    simp [List.length_mergeSort]
  · rw [hdata]
    simp

/-- Witness for C9 on a three-value list with 3 bins and a two-value
constant list. -/
theorem getHistogramData_spec_witness :
    getHistogramData [] 3 (fun _ => "x") = ⟨["No Data"], [0]⟩ ∧
    (getHistogramData [(1 : ℚ), 2, 4] 3 (fun _ => "x")).data.sum =
      ([(1 : ℚ), 2, 4] : List ℚ).length ∧
    (getHistogramData [(7 : ℚ), 7] 3 (fun _ => "x")).data =
      ([(7 : ℚ), 7] : List ℚ).length :: List.replicate 2 0 ∧
    (getHistogramData [(7 : ℚ), 7] 3 (fun _ => "x")).data.sum =
      ([(7 : ℚ), 7] : List ℚ).length := by
  have h := getHistogramData_spec [(1 : ℚ), 2, 4] [(7 : ℚ), 7] 3
    (fun _ => "x") 7 (by simp) (by norm_num) (by simp) (by norm_num)
  exact ⟨h.1, h.2.1, h.2.2.2.2.1, h.2.2.2.2.2⟩

end FinSim
